import Mathlib

/-!
Verification of the cross-exchange arbitrage scanner
(`app/scanners/arbitrage_scanner.py`) against its specification.

Prices and fees are modelled as exact rationals (`ℚ`); the quote set for one
base asset is a list of `(exchange, Quote)` pairs in iteration order (a Python
dict preserves insertion order, and `asyncio.gather` preserves task order, so
the list order is the dict iteration order).
-/

/-- One exchange's snapshot for one instrument, as built at
`arbitrage_scanner.py:125`: `{'bid': ticker['bid'], 'ask': ticker['ask']}`. -/
structure Quote where
  bid : ℚ
  ask : ℚ
deriving Repr, DecidableEq

/-- `EXCHANGES` from `app/config.py`. -/
def EXCHANGES : List String := ["bybit", "bitstamp"]

/-- `EXCHANGE_FEES` from `app/config.py` (taker fee fractions). -/
def EXCHANGE_FEES : List (String × ℚ) :=
  [("binance", 4/10000), ("bybit", 6/10000), ("bitstamp", 4/10000)]

/-- `EXCHANGE_TRADING_PAIRS` from `app/config.py`. -/
def EXCHANGE_TRADING_PAIRS : List (String × List String) :=
  [("bybit",
    ["BTC/USDT:USDT", "ETH/USDT:USDT", "SOL/USDT:USDT", "XRP/USDT:USDT",
     "ADA/USDT:USDT", "DOT/USDT:USDT", "UNI/USDT:USDT", "AAVE/USDT:USDT",
     "LINK/USDT:USDT", "XLM/USDT:USDT", "SHIB/USDT"]),
   ("bitstamp",
    ["BTC/USD", "ETH/USD", "SOL/USD", "XRP/USD",
     "ADA/USD", "DOT/USD", "UNI/USD", "AAVE/USD",
     "LINK/USD", "XLM/USD", "SHIB/USD"])]

/-- `EXCHANGE_FEES.get(name, 0.0)` (`arbitrage_scanner.py:190-191`):
fee lookup with default `0.0` for an unlisted exchange. -/
def feeFor (fees : List (String × ℚ)) (ex : String) : ℚ :=
  match fees.lookup ex with
  | some f => f
  | none => 0

/-- Python `str.startswith`. -/
def startswith (s pre : String) : Bool := pre.data.isPrefixOf s.data

/-- `next((pair for pair in EXCHANGE_TRADING_PAIRS.get(ex, []) if
pair.startswith(f"{bc}/")), "Unknown")` (`arbitrage_scanner.py:215-216`). -/
def matching_pair (ex bc : String) : String :=
  match ((EXCHANGE_TRADING_PAIRS.lookup ex).getD []).find?
      (fun p => startswith p (bc ++ "/")) with
  | some p => p
  | none => "Unknown"

/-- Python `max(tickers, key=lambda x: tickers[x]['bid'])` keeps the current
maximum and replaces it only on a strictly greater key, so ties resolve to the
first element in iteration order. -/
def maxByBidGo (best : String × Quote) : List (String × Quote) → String × Quote
  | [] => best
  | y :: ys => if best.2.bid < y.2.bid then maxByBidGo y ys else maxByBidGo best ys

/-- `max(tickers, key=lambda x: tickers[x]['bid'])` over the quote set
(`arbitrage_scanner.py:180`); `none` on the empty set (Python would raise). -/
def maxByBid : List (String × Quote) → Option (String × Quote)
  | [] => none
  | x :: xs => some (maxByBidGo x xs)

/-- Python `min(tickers, key=lambda x: tickers[x]['ask'])` replaces the current
minimum only on a strictly smaller key. -/
def minByAskGo (best : String × Quote) : List (String × Quote) → String × Quote
  | [] => best
  | y :: ys => if y.2.ask < best.2.ask then minByAskGo y ys else minByAskGo best ys

/-- `min(tickers, key=lambda x: tickers[x]['ask'])` (`arbitrage_scanner.py:181`). -/
def minByAsk : List (String × Quote) → Option (String × Quote)
  | [] => none
  | x :: xs => some (minByAskGo x xs)

/-- `effective_buy_price = best_ask * (1 + buy_fee)` (`arbitrage_scanner.py:195`). -/
def effective_buy_price (ask buyFee : ℚ) : ℚ := ask * (1 + buyFee)

/-- `crypto_units_bought = trade_amount_usd / effective_buy_price`
(`arbitrage_scanner.py:196`). -/
def crypto_units_bought (notional ask buyFee : ℚ) : ℚ :=
  notional / effective_buy_price ask buyFee

/-- `total_buy_cost = crypto_units_bought * effective_buy_price`
(`arbitrage_scanner.py:197`). -/
def total_buy_cost (notional ask buyFee : ℚ) : ℚ :=
  crypto_units_bought notional ask buyFee * effective_buy_price ask buyFee

/-- `buy_fee_amount = crypto_units_bought * best_ask * buy_fee`
(`arbitrage_scanner.py:198`). -/
def buy_fee_amount (notional ask buyFee : ℚ) : ℚ :=
  crypto_units_bought notional ask buyFee * ask * buyFee

/-- `gross_sell_revenue = crypto_units_bought * best_bid`
(`arbitrage_scanner.py:201`). -/
def gross_sell_revenue (notional bid ask buyFee : ℚ) : ℚ :=
  crypto_units_bought notional ask buyFee * bid

/-- `sell_fee_amount = gross_sell_revenue * sell_fee` (`arbitrage_scanner.py:202`). -/
def sell_fee_amount (notional bid ask buyFee sellFee : ℚ) : ℚ :=
  gross_sell_revenue notional bid ask buyFee * sellFee

/-- `net_sell_revenue = gross_sell_revenue - sell_fee_amount`
(`arbitrage_scanner.py:203`). -/
def net_sell_revenue (notional bid ask buyFee sellFee : ℚ) : ℚ :=
  gross_sell_revenue notional bid ask buyFee - sell_fee_amount notional bid ask buyFee sellFee

/-- `net_profit_usd = net_sell_revenue - total_buy_cost` (`arbitrage_scanner.py:206`). -/
def net_profit_usd (notional bid ask buyFee sellFee : ℚ) : ℚ :=
  net_sell_revenue notional bid ask buyFee sellFee - total_buy_cost notional ask buyFee

/-- `gross_spread_percentage = ((best_bid - best_ask) / best_ask) * 100`
(`arbitrage_scanner.py:210`). -/
def gross_spread_percentage (bid ask : ℚ) : ℚ := (bid - ask) / ask * 100

/-- The opportunity record built at `arbitrage_scanner.py:342-360`; field names
follow the dict keys of `opportunity_data`. -/
structure Opportunity where
  timestamp : String
  scan_number : ℕ
  base_currency : String
  buy_exchange : String
  sell_exchange : String
  buy_pair : String
  sell_pair : String
  buy_price : ℚ
  sell_price : ℚ
  buy_fee_percent : ℚ
  sell_fee_percent : ℚ
  gross_spread_percent : ℚ
  net_profit_usd : ℚ
  net_profit_percent : ℚ
  trade_amount_usd : ℚ
  crypto_units : ℚ
  total_fees_usd : ℚ
deriving Repr, DecidableEq

/-- The per-asset evaluation of `scan_continuously`
(`arbitrage_scanner.py:305-363`): skip when fewer than two exchanges have a
quote, otherwise pick the best bid and best ask exchanges, run the $10,000
net-profit simulation, and emit the opportunity record exactly when
`net_profit_usd > 0`. -/
def evaluateAsset (fees : List (String × ℚ)) (ts : String) (k : ℕ) (bc : String)
    (tickers : List (String × Quote)) : Option Opportunity :=
  if tickers.length < 2 then none
  else
    match maxByBid tickers, minByAsk tickers with
    | some s, some b =>
      let best_bid := s.2.bid
      let best_ask := b.2.ask
      let buy_fee := feeFor fees b.1
      let sell_fee := feeFor fees s.1
      let np := net_profit_usd 10000 best_bid best_ask buy_fee sell_fee
      if 0 < np then
        some
          { timestamp := ts
            scan_number := k
            base_currency := bc
            buy_exchange := b.1
            sell_exchange := s.1
            buy_pair := matching_pair b.1 bc
            sell_pair := matching_pair s.1 bc
            buy_price := best_ask
            sell_price := best_bid
            buy_fee_percent := buy_fee * 100
            sell_fee_percent := sell_fee * 100
            gross_spread_percent := gross_spread_percentage best_bid best_ask
            net_profit_usd := np
            net_profit_percent := np / 10000 * 100
            trade_amount_usd := 10000
            crypto_units := crypto_units_bought 10000 best_ask buy_fee
            total_fees_usd :=
              buy_fee_amount 10000 best_ask buy_fee +
                sell_fee_amount 10000 best_bid best_ask buy_fee sell_fee }
      else none
    | _, _ => none

/-- The net profit of the spec's fixed-notional simulation, written from the
spec's own wording (`effective_buy_price = ask * (1+buy_fee)`;
`units = N / effective_buy_price`; `gross_sell_revenue = units * bid`;
`net_sell_revenue = gross_sell_revenue * (1 - sell_fee)`;
`net_profit = net_sell_revenue - units * effective_buy_price`), over the same
best-bid / best-ask selection, for comparison with the code's chain. -/
def specNetProfit (notional : ℚ) (fees : List (String × ℚ))
    (tickers : List (String × Quote)) : ℚ :=
  match maxByBid tickers, minByAsk tickers with
  | some s, some b =>
    let buyFee := feeFor fees b.1
    let sellFee := feeFor fees s.1
    let ebp := b.2.ask * (1 + buyFee)
    let units := notional / ebp
    let gross := units * s.2.bid
    let net := gross * (1 - sellFee)
    net - units * ebp
  | _, _ => 0

/-!
## Quote fetch (`fetch_ticker_for_exchange`, `arbitrage_scanner.py:88-135`)

The observable behaviour of one exchange during one fetch. The four cases
cover the code's control paths: the client constructor raising (caught as
`AttributeError`/`ccxt.BaseError`; the local `exchange` stays `None`), the
capability check `exchange.has.get('fetchTicker')` failing, `fetch_ticker`
raising a `ccxt.BaseError` (network/rate-limit errors), and `fetch_ticker`
returning a ticker whose bid/ask sides may each be present or missing.
-/

inductive FetchBehavior where
  | constructRaises : FetchBehavior
  | noCapability : FetchBehavior
  | fetchRaises : FetchBehavior
  | ticker (bid ask : Option ℚ) : FetchBehavior
deriving Repr, DecidableEq

/-- Python truthiness of `ticker.get('bid')`: falsy when the key is absent /
`None` or the value is `0.0`. -/
def truthy : Option ℚ → Bool
  | none => false
  | some v => v != 0

/-- The `try`/`except` body of `fetch_ticker_for_exchange`
(`arbitrage_scanner.py:94-132`). First component: whether the local
`exchange` is bound to a constructed client when control reaches the
`finally` block (it is `None` only when construction itself raised); second
component: the value the function returns (`None` is how every caught
failure leaves the function — the `except` arms at line 130-132 log and
return `None` rather than re-raising). -/
def fetchBody (name : String) : FetchBehavior → Bool × Option (String × Quote)
  | .constructRaises => (false, none)
  | .noCapability => (true, none)
  | .fetchRaises => (true, none)
  | .ticker bid ask =>
    if truthy bid && truthy ask then
      (true, some (name, { bid := bid.getD 0, ask := ask.getD 0 }))
    else
      (true, none)

/-- The result of one whole fetch, `finally` included. -/
structure FetchTrace where
  result : Option (String × Quote)
  exchange_constructed : Bool
  close_called : Bool
deriving Repr, DecidableEq

/-- `fetch_ticker_for_exchange` (`arbitrage_scanner.py:88-135`): run the body,
then the `finally` block executes `if exchange: await exchange.close()` — the
connection is closed exactly when the client object was constructed. -/
def fetch_ticker_for_exchange (name : String) (b : FetchBehavior) : FetchTrace :=
  let body := fetchBody name b
  { result := body.2, exchange_constructed := body.1, close_called := body.1 }

/-- The result-joining loop of the collector (`arbitrage_scanner.py:162-169` /
`296-303`): `asyncio.gather` returns the per-exchange results in task order;
`None` results are dropped and the rest populate the `tickers` dict in that
order. -/
def collectTickers (behaviors : List (String × FetchBehavior)) : List (String × Quote) :=
  behaviors.filterMap (fun nb => (fetch_ticker_for_exchange nb.1 nb.2).result)

/-- The failure modes named by the error taxonomy for a single fetch:
a network error raised by the client, a missing ticker capability, or a
ticker missing its bid or ask. -/
def isListedFailure : FetchBehavior → Bool
  | .fetchRaises => true
  | .noCapability => true
  | .ticker bid ask => !bid.isSome || !ask.isSome
  | .constructRaises => false

/-!
## Opportunity persistence and the continuous scheduler
(`save_opportunity_to_file` at `arbitrage_scanner.py:22-30`,
`scan_continuously` at `arbitrage_scanner.py:247-398`)
-/

/-- A JSON scalar as produced by `json.dumps` on the opportunity dict. -/
inductive JVal where
  | s (v : String) : JVal
  | num (v : ℚ) : JVal
  | n (v : ℕ) : JVal
deriving Repr, DecidableEq

/-- The JSON object written for one opportunity: `json.dumps(opportunity_data)`
keeps the dict's keys in insertion order (`arbitrage_scanner.py:342-360`);
`json.dumps` emits no newline of its own, so each object is one line. -/
def serializeOpportunity (o : Opportunity) : List (String × JVal) :=
  [("timestamp", .s o.timestamp),
   ("scan_number", .n o.scan_number),
   ("base_currency", .s o.base_currency),
   ("buy_exchange", .s o.buy_exchange),
   ("sell_exchange", .s o.sell_exchange),
   ("buy_pair", .s o.buy_pair),
   ("sell_pair", .s o.sell_pair),
   ("buy_price", .num o.buy_price),
   ("sell_price", .num o.sell_price),
   ("buy_fee_percent", .num o.buy_fee_percent),
   ("sell_fee_percent", .num o.sell_fee_percent),
   ("gross_spread_percent", .num o.gross_spread_percent),
   ("net_profit_usd", .num o.net_profit_usd),
   ("net_profit_percent", .num o.net_profit_percent),
   ("trade_amount_usd", .num o.trade_amount_usd),
   ("crypto_units", .num o.crypto_units),
   ("total_fees_usd", .num o.total_fees_usd)]

/-- The key set of the persisted record, in the dict's insertion order. -/
def opportunity_field_names : List String :=
  ["timestamp", "scan_number", "base_currency", "buy_exchange", "sell_exchange",
   "buy_pair", "sell_pair", "buy_price", "sell_price", "buy_fee_percent",
   "sell_fee_percent", "gross_spread_percent", "net_profit_usd",
   "net_profit_percent", "trade_amount_usd", "crypto_units", "total_fees_usd"]

/-- The per-asset outcome a cycle reports: insufficient quotes (the
`len(tickers) < 2` skip), a detected opportunity, or a logged no-profit line. -/
inductive AssetStatus where
  | insufficient (base : String) : AssetStatus
  | opportunity (o : Opportunity) : AssetStatus
  | noProfit (base : String) : AssetStatus
deriving Repr, DecidableEq

/-- The status the cycle body logs for one asset given its joined quote set
(`arbitrage_scanner.py:305-374`). -/
def asset_status (fees : List (String × ℚ)) (ts : String) (k : ℕ)
    (a : String × List (String × Quote)) : AssetStatus :=
  if a.2.length < 2 then .insufficient a.1
  else
    match evaluateAsset fees ts k a.1 a.2 with
    | some o => .opportunity o
    | none => .noProfit a.1

/-- One cycle's per-asset status lines, in asset order. -/
def scan_cycle_statuses (fees : List (String × ℚ)) (ts : String) (k : ℕ)
    (assets : List (String × List (String × Quote))) : List AssetStatus :=
  assets.map (asset_status fees ts k)

/-- The scheduler's mutable state: the `scan_count` and `opportunities_found`
counters of `scan_continuously`, the contents of the opportunities file (one
JSON object per line), and whether the session log handle is open. -/
structure SchedState where
  scan_count : ℕ
  opportunities_found : ℕ
  file : List (List (String × JVal))
  log_open : Bool
deriving Repr, DecidableEq

/-- `save_opportunity_to_file` (`arbitrage_scanner.py:22-30`): append one JSON
line; any exception while writing is caught inside the function, logged, and
the file is left as it was — nothing propagates to the caller. `ok` is whether
this append attempt succeeds. -/
def save_opportunity_to_file (ok : Bool) (file : List (List (String × JVal)))
    (obj : List (String × JVal)) : List (List (String × JVal)) :=
  if ok then file ++ [obj] else file

/-- One asset's step inside a scan cycle (`arbitrage_scanner.py:284-374`):
join the fetch results, evaluate, and on a profitable opportunity increment
`opportunities_found` and hand the record to the sink. `sink` says whether the
n-th persist attempt of the session succeeds (the code's counter increments
before the save, so the attempt index is `opportunities_found` pre-increment). -/
def assetStep (fees : List (String × ℚ)) (sink : ℕ → Bool) (ts : String) (k : ℕ)
    (st : SchedState) (a : String × List (String × FetchBehavior)) : SchedState :=
  let tickers := collectTickers a.2
  match evaluateAsset fees ts k a.1 tickers with
  | some opp =>
    { st with
      opportunities_found := st.opportunities_found + 1
      file := save_opportunity_to_file (sink st.opportunities_found) st.file
        (serializeOpportunity opp) }
  | none => st

/-- The input of one scan cycle: the cycle's wall-clock timestamp and, per
base currency, the behavior of each exchange's fetch. -/
structure CycleInput where
  timestamp : String
  assets : List (String × List (String × FetchBehavior))

/-- One iteration of the `while True` loop (`arbitrage_scanner.py:272-386`):
increment `scan_count`, then process every base currency in order. The
inter-cycle sleep follows; it is the cancellation point. -/
def runCycle (fees : List (String × ℚ)) (sink : ℕ → Bool) (st : SchedState)
    (c : CycleInput) : SchedState :=
  let st1 := { st with scan_count := st.scan_count + 1 }
  c.assets.foldl (assetStep fees sink c.timestamp st1.scan_count) st1

/-- The final stats printed by the `KeyboardInterrupt` handler
(`arbitrage_scanner.py:388-395`). -/
structure FinalSummary where
  total_scans : ℕ
  opportunities_found : ℕ
deriving Repr, DecidableEq

/-- `scan_continuously` under an external cancellation that arrives during the
inter-cycle sleep after the last provided cycle: `start_logging` opens the
session log, the loop runs one `runCycle` per provided input, the
`KeyboardInterrupt` raised inside `asyncio.sleep` aborts the sleep before the
next cycle's `scan_count += 1`, and the handler prints the final stats and
calls `stop_logging`, closing the session log handle. -/
def scan_continuously (fees : List (String × ℚ)) (sink : ℕ → Bool)
    (inputs : List CycleInput) : SchedState × FinalSummary :=
  let st0 : SchedState :=
    { scan_count := 0, opportunities_found := 0, file := [], log_open := true }
  let stN := inputs.foldl (runCycle fees sink) st0
  ({ stN with log_open := false },
   { total_scans := stN.scan_count, opportunities_found := stN.opportunities_found })

/-- The opportunities one cycle detects (scan number `k`), in asset order. -/
def cycleOpps (fees : List (String × ℚ)) (k : ℕ) (c : CycleInput) : List Opportunity :=
  c.assets.filterMap (fun a => evaluateAsset fees c.timestamp k a.1 (collectTickers a.2))

/-- All opportunities detected across a run whose first cycle is numbered
`k + 1`. -/
def detectedFrom (fees : List (String × ℚ)) (k : ℕ) : List CycleInput → List Opportunity
  | [] => []
  | c :: rest => cycleOpps fees (k + 1) c ++ detectedFrom fees (k + 1) rest

/-- All opportunities a full run detects, in detection order. -/
def detectedOpportunities (fees : List (String × ℚ)) (inputs : List CycleInput) :
    List Opportunity :=
  detectedFrom fees 0 inputs

example : feeFor EXCHANGE_FEES "bybit" = 6/10000 := rfl
example : feeFor EXCHANGE_FEES "kraken" = 0 := rfl
example : matching_pair "bitstamp" "BTC" = "BTC/USD" := by decide
example : maxByBid [("a", ⟨1, 2⟩), ("b", ⟨3, 1⟩), ("c", ⟨3, 4⟩)] = some ("b", ⟨3, 1⟩) := by decide
example : minByAsk [("a", ⟨1, 2⟩), ("b", ⟨3, 1⟩), ("c", ⟨3, 1⟩)] = some ("b", ⟨3, 1⟩) := by decide

/-- C9: On every exit path of a single quote fetch — successful ticker,
missing-capability skip, missing bid/ask, or raised exception — if an exchange
connection object was constructed, its close operation is invoked before the
fetch returns (the `finally` block at `arbitrage_scanner.py:133-135`). -/
theorem c9_connection_closed_on_every_exit (name : String) (b : FetchBehavior)
    (h : (fetch_ticker_for_exchange name b).exchange_constructed = true) :
    (fetch_ticker_for_exchange name b).close_called = true := by
  simpa [fetch_ticker_for_exchange] using h

/-- Witness for C9 at the missing-capability exit path. -/
theorem c9_witness :
    (fetch_ticker_for_exchange "bybit" .noCapability).exchange_constructed = true ∧
    (fetch_ticker_for_exchange "bybit" .noCapability).close_called = true :=
  ⟨rfl, c9_connection_closed_on_every_exit "bybit" .noCapability rfl⟩

/-- C4: For every per-exchange quote fetch that fails — network error raised by
the client, missing ticker capability, or a ticker with missing bid or ask —
the fetch returns `None` instead of propagating an exception (the `except`
arms at `arbitrage_scanner.py:130-132` and the early `return None`s), and the
collector's join drops exactly that exchange from the quote set while keeping
every other exchange's result. -/
theorem c4_fetch_failure_isolated (name : String) (b : FetchBehavior)
    (pre post : List (String × FetchBehavior)) (h : isListedFailure b = true) :
    (fetch_ticker_for_exchange name b).result = none ∧
    collectTickers (pre ++ (name, b) :: post) =
      collectTickers pre ++ collectTickers post := by
  have hres : (fetch_ticker_for_exchange name b).result = none := by
    cases b with
    | constructRaises => rfl
    | noCapability => rfl
    | fetchRaises => rfl
    | ticker bid ask =>
      cases bid with
      | none => simp [fetch_ticker_for_exchange, fetchBody, truthy]
      | some v =>
        cases ask with
        | none => simp [fetch_ticker_for_exchange, fetchBody, truthy]
        | some w => simp [isListedFailure] at h
  refine ⟨hres, ?_⟩
  simp [collectTickers, List.filterMap_append, List.filterMap_cons, hres]

/-- Witness for C4: a ticker missing its bid drops that exchange and keeps the
rest. -/
theorem c4_witness :
    isListedFailure (FetchBehavior.ticker none (some 1)) = true ∧
    ((fetch_ticker_for_exchange "e" (FetchBehavior.ticker none (some 1))).result = none ∧
     collectTickers ([("a", FetchBehavior.ticker (some 1) (some 2))] ++
         ("e", FetchBehavior.ticker none (some 1)) :: []) =
       collectTickers [("a", FetchBehavior.ticker (some 1) (some 2))] ++
         collectTickers []) :=
  ⟨by decide,
   c4_fetch_failure_isolated "e" (FetchBehavior.ticker none (some 1))
     [("a", FetchBehavior.ticker (some 1) (some 2))] [] (by decide)⟩

/-- Counterexample for C5 as stated: the fetch only checks Python truthiness of
the ticker's bid/ask (`arbitrage_scanner.py:123`), not positivity, so a ticker
reporting a negative bid still constructs a quote that enters the quote set —
its bid is not `> 0`. -/
theorem c5_counterexample :
    collectTickers [("e", FetchBehavior.ticker (some (-1)) (some 1))] =
      [("e", { bid := -1, ask := 1 })] ∧
    ¬ (0 < ({ bid := -1, ask := 1 } : Quote).bid) := by
  refine ⟨by decide, ?_⟩
  norm_num

/-- C5 (amended): every quote that enters a quote set has a present, non-zero
bid and a present, non-zero ask — a ticker with missing or zero bid or ask
constructs no quote and counts as a fetch failure. The code checks truthiness
only, so strict positivity is not enforced for negative reported prices. -/
theorem c5_amended_quotes_nonzero (behaviors : List (String × FetchBehavior))
    (n : String) (q : Quote) (h : (n, q) ∈ collectTickers behaviors) :
    q.bid ≠ 0 ∧ q.ask ≠ 0 := by
  rw [collectTickers, List.mem_filterMap] at h
  obtain ⟨⟨name, b⟩, _, heq⟩ := h
  cases b with
  | constructRaises => simp [fetch_ticker_for_exchange, fetchBody] at heq
  | noCapability => simp [fetch_ticker_for_exchange, fetchBody] at heq
  | fetchRaises => simp [fetch_ticker_for_exchange, fetchBody] at heq
  | ticker bid ask =>
    cases bid with
    | none => simp [fetch_ticker_for_exchange, fetchBody, truthy] at heq
    | some v =>
      cases ask with
      | none => simp [fetch_ticker_for_exchange, fetchBody, truthy] at heq
      | some w =>
        by_cases hv : v = 0
        · simp [fetch_ticker_for_exchange, fetchBody, truthy, hv] at heq
        · by_cases hw : w = 0
          · simp [fetch_ticker_for_exchange, fetchBody, truthy, hv, hw] at heq
          · simp [fetch_ticker_for_exchange, fetchBody, truthy, hv, hw] at heq
            obtain ⟨-, hq⟩ := heq
            subst hq
            exact ⟨hv, hw⟩

/-- Witness for C5 (amended) at a concrete valid ticker. -/
theorem c5_witness :
    ("e", ({ bid := 2, ask := 3 } : Quote)) ∈
      collectTickers [("e", FetchBehavior.ticker (some 2) (some 3))] ∧
    (({ bid := 2, ask := 3 } : Quote).bid ≠ 0 ∧ ({ bid := 2, ask := 3 } : Quote).ask ≠ 0) :=
  ⟨by decide,
   c5_amended_quotes_nonzero [("e", FetchBehavior.ticker (some 2) (some 3))]
     "e" { bid := 2, ask := 3 } (by decide)⟩

/-- C2: a quote set with fewer than two exchanges produces no opportunity
(`arbitrage_scanner.py:175-177` / `305-307`), the asset's status for the cycle
is the logged insufficient-data skip, and every other asset of the cycle is
still evaluated. -/
theorem c2_insufficient_quotes_skip (fees : List (String × ℚ)) (ts : String)
    (k : ℕ) (bc : String) (tickers : List (String × Quote))
    (h : tickers.length < 2) :
    evaluateAsset fees ts k bc tickers = none ∧
    ∀ pre post,
      scan_cycle_statuses fees ts k (pre ++ (bc, tickers) :: post) =
        scan_cycle_statuses fees ts k pre ++
          AssetStatus.insufficient bc :: scan_cycle_statuses fees ts k post := by
  constructor
  · rw [evaluateAsset, if_pos h]
  · intro pre post
    simp [scan_cycle_statuses, asset_status, h]

/-- Witness for C2 at a one-exchange quote set inside a two-asset cycle. -/
theorem c2_witness :
    ([("a", ({ bid := 1, ask := 1 } : Quote))].length < 2) ∧
    (evaluateAsset [] "t" 1 "SHIB" [("a", { bid := 1, ask := 1 })] = none ∧
     ∀ pre post,
       scan_cycle_statuses [] "t" 1 (pre ++ ("SHIB", [("a", { bid := 1, ask := 1 })]) :: post) =
         scan_cycle_statuses [] "t" 1 pre ++
           AssetStatus.insufficient "SHIB" :: scan_cycle_statuses [] "t" 1 post) :=
  ⟨by decide,
   c2_insufficient_quotes_skip [] "t" 1 "SHIB" [("a", { bid := 1, ask := 1 })] (by decide)⟩

/-- `maxByBid` is defined on every non-empty quote set. -/
lemma maxByBid_isSome (tickers : List (String × Quote)) (h : tickers ≠ []) :
    ∃ s, maxByBid tickers = some s := by
  cases tickers with
  | nil => exact absurd rfl h
  | cons x xs => exact ⟨maxByBidGo x xs, rfl⟩

/-- `minByAsk` is defined on every non-empty quote set. -/
lemma minByAsk_isSome (tickers : List (String × Quote)) (h : tickers ≠ []) :
    ∃ b, minByAsk tickers = some b := by
  cases tickers with
  | nil => exact absurd rfl h
  | cons x xs => exact ⟨minByAskGo x xs, rfl⟩

/-- C10: in exact rational arithmetic the simulated buy cost is exactly the
notional (`crypto_units_bought * effective_buy_price = trade_amount_usd`,
`arbitrage_scanner.py:196-197`), so the emission decision
`net_profit_usd > 0` is equivalent to
`best_bid * (1 - sell_fee) > best_ask * (1 + buy_fee)` and in particular
does not depend on the notional amount. -/
theorem c10_notional_cancels_and_decision_is_notional_free
    (N bid ask buyFee sellFee : ℚ) (hN : 0 < N) (hask : 0 < ask)
    (hfee : 0 ≤ buyFee) :
    crypto_units_bought N ask buyFee * effective_buy_price ask buyFee = N ∧
    total_buy_cost N ask buyFee = N ∧
    (0 < net_profit_usd N bid ask buyFee sellFee ↔
      ask * (1 + buyFee) < bid * (1 - sellFee)) := by
  have hp : 0 < effective_buy_price ask buyFee := by
    rw [effective_buy_price]
    have h1 : (0:ℚ) < 1 + buyFee := by linarith
    exact mul_pos hask h1
  have hcancel : crypto_units_bought N ask buyFee * effective_buy_price ask buyFee = N := by
    rw [crypto_units_bought]
    exact div_mul_cancel₀ N hp.ne'
  refine ⟨hcancel, hcancel, ?_⟩
  have hrw : net_profit_usd N bid ask buyFee sellFee =
      N * (bid * (1 - sellFee)) / effective_buy_price ask buyFee - N := by
    simp only [net_profit_usd, net_sell_revenue, gross_sell_revenue,
      sell_fee_amount, total_buy_cost, crypto_units_bought]
    rw [div_mul_cancel₀ N hp.ne']
    field_simp
    ring
  rw [hrw, sub_pos, lt_div_iff₀ hp, mul_comm N (effective_buy_price ask buyFee),
    mul_comm N (bid * (1 - sellFee)), mul_lt_mul_right hN, effective_buy_price]

/-- Witness for C10 at Scenario A's quotes and the configured fees. -/
theorem c10_witness :
    (0 < (10000:ℚ) ∧ 0 < (50010:ℚ) ∧ (0:ℚ) ≤ 4/10000) ∧
    (crypto_units_bought 10000 50010 (4/10000) *
        effective_buy_price 50010 (4/10000) = 10000 ∧
     total_buy_cost 10000 50010 (4/10000) = 10000 ∧
     (0 < net_profit_usd 10000 50200 50010 (4/10000) (6/10000) ↔
       (50010:ℚ) * (1 + 4/10000) < 50200 * (1 - 6/10000))) :=
  ⟨⟨by norm_num, by norm_num, by norm_num⟩,
   c10_notional_cancels_and_decision_is_notional_free 10000 50200 50010
     (4/10000) (6/10000) (by norm_num) (by norm_num) (by norm_num)⟩

/-- C1: for every quote set with at least two exchanges, the evaluator emits an
opportunity record iff the net profit of the spec's fixed-notional simulation
(notional 10,000; fees from the schedule with default 0 for an unlisted
exchange) is strictly positive (`arbitrage_scanner.py:195-213`). Furthermore a
positive gross spread alone never suffices: in the concrete quote set below the
best bid (102) strictly exceeds the best ask (101), yet with 50% taker fees on
both venues no opportunity is emitted. -/
theorem c1_opportunity_iff_positive_net_profit :
    (∀ (fees : List (String × ℚ)) (ts : String) (k : ℕ) (bc : String)
       (tickers : List (String × Quote)), 2 ≤ tickers.length →
       ((evaluateAsset fees ts k bc tickers).isSome ↔
         0 < specNetProfit 10000 fees tickers)) ∧
    (((maxByBid [("x", ⟨100, 101⟩), ("y", ⟨102, 103⟩)]).getD ("", ⟨0, 0⟩)).2.bid >
       ((minByAsk [("x", ⟨100, 101⟩), ("y", ⟨102, 103⟩)]).getD ("", ⟨0, 0⟩)).2.ask ∧
     evaluateAsset [("x", 1/2), ("y", 1/2)] "t" 1 "BTC"
       [("x", ⟨100, 101⟩), ("y", ⟨102, 103⟩)] = none) := by
  constructor
  · intro fees ts k bc tickers hlen
    have hne : tickers ≠ [] := by
      intro hnil
      rw [hnil] at hlen
      simp at hlen
    obtain ⟨s, hs⟩ := maxByBid_isSome tickers hne
    obtain ⟨b, hb⟩ := minByAsk_isSome tickers hne
    have hnp : net_profit_usd 10000 s.2.bid b.2.ask (feeFor fees b.1) (feeFor fees s.1) =
        specNetProfit 10000 fees tickers := by
      rw [specNetProfit, hs, hb]
      simp only [net_profit_usd, net_sell_revenue, gross_sell_revenue,
        sell_fee_amount, total_buy_cost, crypto_units_bought,
        effective_buy_price]
      ring
    rw [evaluateAsset, if_neg (by omega), hs, hb]
    simp only [← hnp]
    split_ifs with hpos
    · simpa using hpos
    · simpa using hpos
  · have h1 : maxByBid [("x", (⟨100, 101⟩ : Quote)), ("y", ⟨102, 103⟩)] =
        some ("y", ⟨102, 103⟩) := by decide
    have h2 : minByAsk [("x", (⟨100, 101⟩ : Quote)), ("y", ⟨102, 103⟩)] =
        some ("x", ⟨100, 101⟩) := by decide
    constructor
    · rw [h1, h2]
      norm_num
    · rw [evaluateAsset, if_neg (by norm_num), h1, h2]
      have hfx : feeFor [("x", (1:ℚ)/2), ("y", 1/2)] "x" = 1/2 := rfl
      have hfy : feeFor [("x", (1:ℚ)/2), ("y", 1/2)] "y" = 1/2 := rfl
      simp only [hfx, hfy]
      norm_num [net_profit_usd, net_sell_revenue, gross_sell_revenue,
        sell_fee_amount, total_buy_cost, crypto_units_bought,
        effective_buy_price]

/-- Witness for C1 at a two-exchange quote set: the fee-free spread is
profitable, so the iff instance is inhabited on the positive side. -/
theorem c1_witness :
    2 ≤ ([("x", ({ bid := 100, ask := 101 } : Quote)),
          ("y", { bid := 102, ask := 103 })] : List (String × Quote)).length ∧
    ((evaluateAsset [] "t" 1 "BTC"
        [("x", { bid := 100, ask := 101 }), ("y", { bid := 102, ask := 103 })]).isSome ↔
      0 < specNetProfit 10000 []
        [("x", { bid := 100, ask := 101 }), ("y", { bid := 102, ask := 103 })]) :=
  ⟨by decide,
   c1_opportunity_iff_positive_net_profit.1 [] "t" 1 "BTC"
     [("x", { bid := 100, ask := 101 }), ("y", { bid := 102, ask := 103 })]
     (by decide)⟩

/-- The fold behind Python's `max(..., key=...)`: the returned element splits
the scanned list into a strict-smaller prefix and a no-larger tail, so it is
the first element attaining the maximum bid. -/
lemma maxByBidGo_spec (l : List (String × Quote)) (best : String × Quote) :
    ∃ pre post, best :: l = pre ++ maxByBidGo best l :: post ∧
      (∀ x ∈ pre, x.2.bid < (maxByBidGo best l).2.bid) ∧
      (∀ x ∈ best :: l, x.2.bid ≤ (maxByBidGo best l).2.bid) := by
  induction l generalizing best with
  | nil =>
    refine ⟨[], [], rfl, ?_, ?_⟩
    · intro x hx
      simp at hx
    · intro x hx
      simp at hx
      rw [hx, maxByBidGo]
  | cons y ys ih =>
    by_cases h : best.2.bid < y.2.bid
    · obtain ⟨pre, post, hdec, hpre, hall⟩ := ih y
      have hy : y.2.bid ≤ (maxByBidGo y ys).2.bid := hall y (List.mem_cons_self y ys)
      refine ⟨best :: pre, post, ?_, ?_, ?_⟩
      · rw [maxByBidGo, if_pos h]
        simpa using hdec
      · intro x hx
        rw [maxByBidGo, if_pos h]
        rcases List.mem_cons.mp hx with hx | hx
        · rw [hx]
          exact lt_of_lt_of_le h hy
        · exact hpre x hx
      · intro x hx
        rw [maxByBidGo, if_pos h]
        rcases List.mem_cons.mp hx with hx | hx
        · rw [hx]
          exact le_of_lt (lt_of_lt_of_le h hy)
        · exact hall x hx
    · obtain ⟨pre, post, hdec, hpre, hall⟩ := ih best
      have hyb : y.2.bid ≤ best.2.bid := not_lt.mp h
      have hbest : best.2.bid ≤ (maxByBidGo best ys).2.bid :=
        hall best (List.mem_cons_self best ys)
      cases pre with
      | nil =>
        simp only [List.nil_append] at hdec
        have hb : best = maxByBidGo best ys := by
          exact (List.cons_eq_cons.mp hdec).1
        have hpost : ys = post := (List.cons_eq_cons.mp hdec).2
        refine ⟨[], y :: ys, ?_, ?_, ?_⟩
        · rw [maxByBidGo, if_neg h]
          simp [← hb]
        · intro x hx
          simp at hx
        · intro x hx
          rw [maxByBidGo, if_neg h, ← hb]
          rcases List.mem_cons.mp hx with hx | hx
          · rw [hx]
          · rcases List.mem_cons.mp hx with hx | hx
            · rw [hx]
              exact hyb
            · have := hall x (List.mem_cons_of_mem best hx)
              rw [← hb] at this
              exact this
      | cons p pre' =>
        have hp : best = p := by
          have := congrArg (fun t => t.head?) hdec
          simpa using this
        have hys : ys = pre' ++ maxByBidGo best ys :: post := by
          have := congrArg (fun t => t.tail) hdec
          simpa using this
        refine ⟨best :: y :: pre', post, ?_, ?_, ?_⟩
        · rw [maxByBidGo, if_neg h]
          rw [List.cons_append, List.cons_append, ← hys]
        · intro x hx
          rw [maxByBidGo, if_neg h]
          have hbeststrict : best.2.bid < (maxByBidGo best ys).2.bid := by
            have := hpre p (List.mem_cons_self p pre')
            rw [← hp] at this
            exact this
          rcases List.mem_cons.mp hx with hx | hx
          · rw [hx]
            exact hbeststrict
          · rcases List.mem_cons.mp hx with hx | hx
            · rw [hx]
              exact lt_of_le_of_lt hyb hbeststrict
            · exact hpre x (List.mem_cons_of_mem p hx)
        · intro x hx
          rw [maxByBidGo, if_neg h]
          rcases List.mem_cons.mp hx with hx | hx
          · rw [hx]
            exact hbest
          · rcases List.mem_cons.mp hx with hx | hx
            · rw [hx]
              exact le_trans hyb hbest
            · exact hall x (List.mem_cons_of_mem best hx)

/-- The fold behind Python's `min(..., key=...)`: the returned element splits
the scanned list into a strictly-greater prefix and a no-smaller tail, so it
is the first element attaining the minimum ask. -/
lemma minByAskGo_spec (l : List (String × Quote)) (best : String × Quote) :
    ∃ pre post, best :: l = pre ++ minByAskGo best l :: post ∧
      (∀ x ∈ pre, (minByAskGo best l).2.ask < x.2.ask) ∧
      (∀ x ∈ best :: l, (minByAskGo best l).2.ask ≤ x.2.ask) := by
  induction l generalizing best with
  | nil =>
    refine ⟨[], [], rfl, ?_, ?_⟩
    · intro x hx
      simp at hx
    · intro x hx
      simp at hx
      rw [hx, minByAskGo]
  | cons y ys ih =>
    by_cases h : y.2.ask < best.2.ask
    · obtain ⟨pre, post, hdec, hpre, hall⟩ := ih y
      have hy : (minByAskGo y ys).2.ask ≤ y.2.ask := hall y (List.mem_cons_self y ys)
      refine ⟨best :: pre, post, ?_, ?_, ?_⟩
      · rw [minByAskGo, if_pos h]
        simpa using hdec
      · intro x hx
        rw [minByAskGo, if_pos h]
        rcases List.mem_cons.mp hx with hx | hx
        · rw [hx]
          exact lt_of_le_of_lt hy h
        · exact hpre x hx
      · intro x hx
        rw [minByAskGo, if_pos h]
        rcases List.mem_cons.mp hx with hx | hx
        · rw [hx]
          exact le_of_lt (lt_of_le_of_lt hy h)
        · exact hall x hx
    · obtain ⟨pre, post, hdec, hpre, hall⟩ := ih best
      have hyb : best.2.ask ≤ y.2.ask := not_lt.mp h
      have hbest : (minByAskGo best ys).2.ask ≤ best.2.ask :=
        hall best (List.mem_cons_self best ys)
      cases pre with
      | nil =>
        simp only [List.nil_append] at hdec
        have hb : best = minByAskGo best ys := (List.cons_eq_cons.mp hdec).1
        refine ⟨[], y :: ys, ?_, ?_, ?_⟩
        · rw [minByAskGo, if_neg h]
          simp [← hb]
        · intro x hx
          simp at hx
        · intro x hx
          rw [minByAskGo, if_neg h, ← hb]
          rcases List.mem_cons.mp hx with hx | hx
          · rw [hx]
          · rcases List.mem_cons.mp hx with hx | hx
            · rw [hx]
              exact hyb
            · have := hall x (List.mem_cons_of_mem best hx)
              rw [← hb] at this
              exact this
      | cons p pre' =>
        have hp : best = p := by
          have := congrArg (fun t => t.head?) hdec
          simpa using this
        have hys : ys = pre' ++ minByAskGo best ys :: post := by
          have := congrArg (fun t => t.tail) hdec
          simpa using this
        refine ⟨best :: y :: pre', post, ?_, ?_, ?_⟩
        · rw [minByAskGo, if_neg h]
          rw [List.cons_append, List.cons_append, ← hys]
        · intro x hx
          rw [minByAskGo, if_neg h]
          have hbeststrict : (minByAskGo best ys).2.ask < best.2.ask := by
            have := hpre p (List.mem_cons_self p pre')
            rw [← hp] at this
            exact this
          rcases List.mem_cons.mp hx with hx | hx
          · rw [hx]
            exact hbeststrict
          · rcases List.mem_cons.mp hx with hx | hx
            · rw [hx]
              exact lt_of_lt_of_le hbeststrict hyb
            · exact hpre x (List.mem_cons_of_mem p hx)
        · intro x hx
          rw [minByAskGo, if_neg h]
          rcases List.mem_cons.mp hx with hx | hx
          · rw [hx]
            exact hbest
          · rcases List.mem_cons.mp hx with hx | hx
            · rw [hx]
              exact le_trans hbest hyb
            · exact hall x (List.mem_cons_of_mem best hx)

/-- C3: on every non-empty quote set the evaluator's sell side is the quote
with the maximum bid and its buy side the quote with the minimum ask, each
resolved to the first exchange in iteration order on ties
(`arbitrage_scanner.py:180-181` / `310-311`): the selected entry splits the
set into a prefix every element of which is strictly worse, and it is at least
as good as every element of the set. Both selections are functions of the
quote set, hence deterministic for a fixed set. -/
theorem c3_best_bid_ask_first_encountered (tickers : List (String × Quote))
    (h : tickers ≠ []) :
    (∃ s pre post, maxByBid tickers = some s ∧ tickers = pre ++ s :: post ∧
       (∀ x ∈ pre, x.2.bid < s.2.bid) ∧ (∀ x ∈ tickers, x.2.bid ≤ s.2.bid)) ∧
    (∃ b pre post, minByAsk tickers = some b ∧ tickers = pre ++ b :: post ∧
       (∀ x ∈ pre, b.2.ask < x.2.ask) ∧ (∀ x ∈ tickers, b.2.ask ≤ x.2.ask)) := by
  cases tickers with
  | nil => exact absurd rfl h
  | cons x xs =>
    constructor
    · obtain ⟨pre, post, hdec, hpre, hall⟩ := maxByBidGo_spec xs x
      exact ⟨maxByBidGo x xs, pre, post, rfl, hdec, hpre, hall⟩
    · obtain ⟨pre, post, hdec, hpre, hall⟩ := minByAskGo_spec xs x
      exact ⟨minByAskGo x xs, pre, post, rfl, hdec, hpre, hall⟩

/-- Witness for C3 on a quote set with a bid tie: the first of the two tied
exchanges is selected. -/
theorem c3_witness :
    (([("a", ({ bid := 3, ask := 5 } : Quote)), ("b", { bid := 3, ask := 4 })] :
        List (String × Quote)) ≠ []) ∧
    ((∃ s pre post,
        maxByBid [("a", ({ bid := 3, ask := 5 } : Quote)), ("b", { bid := 3, ask := 4 })] =
          some s ∧
        [("a", ({ bid := 3, ask := 5 } : Quote)), ("b", { bid := 3, ask := 4 })] =
          pre ++ s :: post ∧
        (∀ x ∈ pre, x.2.bid < s.2.bid) ∧
        (∀ x ∈ [("a", ({ bid := 3, ask := 5 } : Quote)), ("b", { bid := 3, ask := 4 })],
          x.2.bid ≤ s.2.bid)) ∧
     (∃ b pre post,
        minByAsk [("a", ({ bid := 3, ask := 5 } : Quote)), ("b", { bid := 3, ask := 4 })] =
          some b ∧
        [("a", ({ bid := 3, ask := 5 } : Quote)), ("b", { bid := 3, ask := 4 })] =
          pre ++ b :: post ∧
        (∀ x ∈ pre, b.2.ask < x.2.ask) ∧
        (∀ x ∈ [("a", ({ bid := 3, ask := 5 } : Quote)), ("b", { bid := 3, ask := 4 })],
          b.2.ask ≤ x.2.ask))) :=
  ⟨by decide,
   c3_best_bid_ask_first_encountered
     [("a", { bid := 3, ask := 5 }), ("b", { bid := 3, ask := 4 })] (by decide)⟩

/-- One cycle's asset fold leaves `scan_count` and the log handle alone and
adds one to `opportunities_found` per detected opportunity, whatever the sink
does. -/
lemma foldl_assetStep_counts (fees : List (String × ℚ)) (sink : ℕ → Bool)
    (ts : String) (k : ℕ) :
    ∀ (assets : List (String × List (String × FetchBehavior))) (st : SchedState),
      (assets.foldl (assetStep fees sink ts k) st).scan_count = st.scan_count ∧
      (assets.foldl (assetStep fees sink ts k) st).log_open = st.log_open ∧
      (assets.foldl (assetStep fees sink ts k) st).opportunities_found =
        st.opportunities_found +
          (assets.filterMap
            (fun a => evaluateAsset fees ts k a.1 (collectTickers a.2))).length := by
  intro assets
  induction assets with
  | nil =>
    intro st
    simp
  | cons a rest ih =>
    intro st
    rcases hev : evaluateAsset fees ts k a.1 (collectTickers a.2) with _ | opp
    · have hstep : assetStep fees sink ts k st a = st := by
        rw [assetStep]
        simp only [hev]
      rw [List.foldl_cons, hstep, List.filterMap_cons, hev]
      exact ih st
    · have hstep : assetStep fees sink ts k st a =
          { st with
            opportunities_found := st.opportunities_found + 1
            file := save_opportunity_to_file (sink st.opportunities_found) st.file
              (serializeOpportunity opp) } := by
        rw [assetStep]
        simp only [hev]
      rw [List.foldl_cons, hstep, List.filterMap_cons, hev]
      obtain ⟨h1, h2, h3⟩ := ih { st with
        opportunities_found := st.opportunities_found + 1
        file := save_opportunity_to_file (sink st.opportunities_found) st.file
          (serializeOpportunity opp) }
      refine ⟨h1, h2, ?_⟩
      rw [h3]
      simp
      omega

/-- With an always-succeeding sink, one cycle's asset fold appends exactly one
serialized JSON object per detected opportunity, in detection order. -/
lemma foldl_assetStep_file (fees : List (String × ℚ)) (ts : String) (k : ℕ) :
    ∀ (assets : List (String × List (String × FetchBehavior))) (st : SchedState),
      (assets.foldl (assetStep fees (fun _ => true) ts k) st).file =
        st.file ++
          ((assets.filterMap
            (fun a => evaluateAsset fees ts k a.1 (collectTickers a.2))).map
              serializeOpportunity) := by
  intro assets
  induction assets with
  | nil =>
    intro st
    simp
  | cons a rest ih =>
    intro st
    rcases hev : evaluateAsset fees ts k a.1 (collectTickers a.2) with _ | opp
    · have hstep : assetStep fees (fun _ => true) ts k st a = st := by
        rw [assetStep]
        simp only [hev]
      rw [List.foldl_cons, hstep, List.filterMap_cons, hev]
      exact ih st
    · have hstep : assetStep fees (fun _ => true) ts k st a =
          { st with
            opportunities_found := st.opportunities_found + 1
            file := st.file ++ [serializeOpportunity opp] } := by
        rw [assetStep]
        simp only [hev, save_opportunity_to_file, if_pos]
      rw [List.foldl_cons, hstep, List.filterMap_cons, hev, ih]
      simp

/-- The whole run's cycle fold: `scan_count` advances once per cycle, the log
handle is untouched, and `opportunities_found` counts the detected
opportunities, whatever the sink does. -/
lemma foldl_runCycle_counts (fees : List (String × ℚ)) (sink : ℕ → Bool) :
    ∀ (inputs : List CycleInput) (st : SchedState),
      (inputs.foldl (runCycle fees sink) st).scan_count =
        st.scan_count + inputs.length ∧
      (inputs.foldl (runCycle fees sink) st).log_open = st.log_open ∧
      (inputs.foldl (runCycle fees sink) st).opportunities_found =
        st.opportunities_found +
          (detectedFrom fees st.scan_count inputs).length := by
  intro inputs
  induction inputs with
  | nil =>
    intro st
    simp [detectedFrom]
  | cons c rest ih =>
    intro st
    rw [List.foldl_cons]
    obtain ⟨h1, h2, h3⟩ :=
      foldl_assetStep_counts fees sink c.timestamp (st.scan_count + 1) c.assets
        { st with scan_count := st.scan_count + 1 }
    obtain ⟨g1, g2, g3⟩ := ih (runCycle fees sink st c)
    have hsc : (runCycle fees sink st c).scan_count = st.scan_count + 1 := by
      rw [runCycle]
      exact h1
    have hlo : (runCycle fees sink st c).log_open = st.log_open := by
      rw [runCycle]
      exact h2
    have hop : (runCycle fees sink st c).opportunities_found =
        st.opportunities_found + (cycleOpps fees (st.scan_count + 1) c).length := by
      rw [runCycle]
      exact h3
    refine ⟨?_, ?_, ?_⟩
    · rw [g1, hsc, List.length_cons]
      omega
    · rw [g2, hlo]
    · rw [g3, hop, hsc, detectedFrom, List.length_append]
      omega

/-- With an always-succeeding sink the run's cycle fold appends one JSON line
per detected opportunity, numbering cycles from the incoming `scan_count`. -/
lemma foldl_runCycle_file (fees : List (String × ℚ)) :
    ∀ (inputs : List CycleInput) (st : SchedState),
      (inputs.foldl (runCycle fees (fun _ => true)) st).file =
        st.file ++
          (detectedFrom fees st.scan_count inputs).map serializeOpportunity := by
  intro inputs
  induction inputs with
  | nil =>
    intro st
    simp [detectedFrom]
  | cons c rest ih =>
    intro st
    rw [List.foldl_cons, ih (runCycle fees (fun _ => true) st c)]
    have hsc : (runCycle fees (fun _ => true) st c).scan_count = st.scan_count + 1 := by
      rw [runCycle]
      exact (foldl_assetStep_counts fees (fun _ => true) c.timestamp
        (st.scan_count + 1) c.assets { st with scan_count := st.scan_count + 1 }).1
    have hfile : (runCycle fees (fun _ => true) st c).file =
        st.file ++ (cycleOpps fees (st.scan_count + 1) c).map serializeOpportunity := by
      rw [runCycle]
      exact foldl_assetStep_file fees c.timestamp (st.scan_count + 1) c.assets
        { st with scan_count := st.scan_count + 1 }
    rw [hsc, hfile, detectedFrom, List.map_append, List.append_assoc]

/-- C6: when the external cancellation signal arrives during the inter-cycle
sleep after cycle N (the provided inputs), cycle N+1 never starts — the final
`scan_count` equals the number of completed cycles — and the shutdown summary
(`arbitrage_scanner.py:388-395`) reports exactly those N scans together with
the total number of opportunities found, after which `stop_logging` closes the
session log handle. -/
theorem c6_cancellation_mid_sleep (fees : List (String × ℚ))
    (inputs : List CycleInput) :
    (scan_continuously fees (fun _ => true) inputs).2.total_scans = inputs.length ∧
    (scan_continuously fees (fun _ => true) inputs).2.opportunities_found =
      (detectedOpportunities fees inputs).length ∧
    (scan_continuously fees (fun _ => true) inputs).1.scan_count = inputs.length ∧
    (scan_continuously fees (fun _ => true) inputs).1.log_open = false := by
  obtain ⟨h1, _, h3⟩ := foldl_runCycle_counts fees (fun _ => true) inputs
    { scan_count := 0, opportunities_found := 0, file := [], log_open := true }
  refine ⟨?_, ?_, ?_, rfl⟩
  · rw [scan_continuously]
    simpa using h1
  · rw [scan_continuously]
    simpa [detectedOpportunities] using h3
  · rw [scan_continuously]
    simpa using h1

/-- C7: every detected profitable opportunity is persisted as exactly one JSON
object appended to the opportunities file, in detection order, and each such
object carries exactly the record's stable field names — which include a field
for each item of the spec's Opportunity record (timestamp; cycle number as
`scan_number`; base asset as `base_currency`; buy/sell exchange; buy/sell
price; buy/sell fee rate as `buy_fee_percent`/`sell_fee_percent`; gross spread
percent; notional as `trade_amount_usd`; net profit amount as
`net_profit_usd`; net profit percent; total fees as `total_fees_usd`). -/
theorem c7_one_json_line_per_opportunity (fees : List (String × ℚ))
    (inputs : List CycleInput) :
    (scan_continuously fees (fun _ => true) inputs).1.file =
      (detectedOpportunities fees inputs).map serializeOpportunity ∧
    (∀ o : Opportunity,
      (serializeOpportunity o).map Prod.fst = opportunity_field_names) ∧
    ["timestamp", "scan_number", "base_currency", "buy_exchange",
     "sell_exchange", "buy_price", "sell_price", "buy_fee_percent",
     "sell_fee_percent", "gross_spread_percent", "trade_amount_usd",
     "net_profit_usd", "net_profit_percent", "total_fees_usd"] ⊆
      opportunity_field_names := by
  refine ⟨?_, fun o => rfl, by decide⟩
  rw [scan_continuously]
  have := foldl_runCycle_file fees inputs
    { scan_count := 0, opportunities_found := 0, file := [], log_open := true }
  simpa [detectedOpportunities] using this

/-- C8: a failure of any persist attempt (modelled by an arbitrary
success/failure outcome per attempt) is absorbed inside
`save_opportunity_to_file` (`arbitrage_scanner.py:26-30`): the scheduler still
runs every cycle, detection continues, and the final summary is identical to
the run whose sink never fails. -/
theorem c8_sink_failure_never_aborts (fees : List (String × ℚ))
    (sink : ℕ → Bool) (inputs : List CycleInput) :
    (scan_continuously fees sink inputs).2 =
      (scan_continuously fees (fun _ => true) inputs).2 ∧
    (scan_continuously fees sink inputs).2.total_scans = inputs.length ∧
    (scan_continuously fees sink inputs).2.opportunities_found =
      (detectedOpportunities fees inputs).length := by
  obtain ⟨h1, _, h3⟩ := foldl_runCycle_counts fees sink inputs
    { scan_count := 0, opportunities_found := 0, file := [], log_open := true }
  obtain ⟨g1, _, g3⟩ := foldl_runCycle_counts fees (fun _ => true) inputs
    { scan_count := 0, opportunities_found := 0, file := [], log_open := true }
  refine ⟨?_, ?_, ?_⟩
  · rw [scan_continuously, scan_continuously]
    simp only []
    congr 1
    · rw [h1, g1]
    · rw [h3, g3]
  · rw [scan_continuously]
    simpa using h1
  · rw [scan_continuously]
    simpa [detectedOpportunities] using h3
